import Mathlib

/-
Verification of the EFLR (Explicitly Formatted Logical Record) decoder of
TotalDepth.RP66V1.core.LogicalRecord.EFLR.

The decoder's own code (Set, AttributeBase, TemplateAttribute, Attribute,
Template, Object, ExplicitlyFormattedLogicalRecord) is embedded from
src/src/TotalDepth/RP66V1/core/LogicalRecord/EFLR.py.  Its collaborators
(the LogicalData byte cursor, the ComponentDescriptor byte parser and the
representation-code decoders IDENT, UVARI, USHORT, UNITS, OBNAME, code_read)
are not part of the given source and are modelled from the specification's
collaborator contracts.

Python exceptions are modelled with an explicit error type and Except;
the unbounded while-loops of the source are given fuel that dominates the
number of remaining cursor bytes (every iteration consumes at least one
byte, so the fuel bound is never the reason a parse stops).
-/

namespace RP66V1

/-- Errors of the embedded decoder.  The four format errors correspond to
ExceptionEFLRSet, ExceptionEFLRAttribute, ExceptionEFLRTemplate and
ExceptionEFLRObject of the source; cursorExhausted models the cursor's
failure on reading/peeking past the end; indexError models a Python
IndexError from an out-of-range list access; unsupportedRepCode models a
representation-code the dispatcher has no decoder for; fuelExhausted is
the artefact of bounding the while-loops. -/
inductive Err where
  | setFormat
  | attributeFormat
  | templateFormat
  | objectFormat
  | cursorExhausted
  | indexError
  | unsupportedRepCode
  | fuelExhausted
deriving DecidableEq, Repr

/-- Modelled from the spec: the Byte Cursor collaborator, a forward-only
readable/peekable byte window with a remaining-length count. -/
structure LogicalData where
  bytes : List Nat
  index : Nat
deriving DecidableEq, Repr

namespace LogicalData

/-- Modelled from the spec: remaining-length query of the Byte Cursor. -/
def remain (ld : LogicalData) : Nat := ld.bytes.length - ld.index

/-- Modelled from the spec: read one byte, advancing the cursor; fails if
no byte remains. -/
def read (ld : LogicalData) : Except Err (Nat × LogicalData) :=
  match ld.bytes[ld.index]? with
  | some b => .ok (b, { ld with index := ld.index + 1 })
  | none => .error .cursorExhausted

/-- Modelled from the spec: peek one byte without advancing; fails if no
byte remains. -/
def peek (ld : LogicalData) : Except Err Nat :=
  match ld.bytes[ld.index]? with
  | some b => .ok b
  | none => .error .cursorExhausted

end LogicalData

/-- Modelled from the spec: the Component Descriptor collaborator, a value
decoded from one control byte.  The role lives in the top three bits
(absent attribute 0, attribute 1, invariant attribute 2, object 3,
redundant set 5, replacement set 6, set 7) and the five low bits carry
the presence flags (for attributes: L 0x10, C 0x08, R 0x04, U 0x02,
V 0x01; for sets: T 0x10, N 0x08). -/
structure ComponentDescriptor where
  byte : Nat
deriving DecidableEq, Repr

namespace ComponentDescriptor

/-- Modelled from the spec: the role encoded in the top three bits. -/
def role (cd : ComponentDescriptor) : Nat := cd.byte % 256 / 32

/-- Modelled from the spec: role predicate for the set group. -/
def is_set_group (cd : ComponentDescriptor) : Bool := 5 ≤ cd.role

/-- Modelled from the spec: role predicate for the attribute group
(absent, attribute or invariant attribute). -/
def is_attribute_group (cd : ComponentDescriptor) : Bool := cd.role ≤ 2

/-- Modelled from the spec: role predicate for objects. -/
def is_object (cd : ComponentDescriptor) : Bool := cd.role = 3

/-- Modelled from the spec: the absent-attribute sub-classification. -/
def is_absent_attribute (cd : ComponentDescriptor) : Bool := cd.role = 0

/-- Modelled from the spec: the invariant-attribute sub-classification. -/
def is_invariant_attribute (cd : ComponentDescriptor) : Bool := cd.role = 2

/-- Modelled from the spec: label-presence flag of an attribute. -/
def has_attribute_L (cd : ComponentDescriptor) : Bool := cd.byte % 32 / 16 = 1

/-- Modelled from the spec: count-presence flag of an attribute. -/
def has_attribute_C (cd : ComponentDescriptor) : Bool := cd.byte % 16 / 8 = 1

/-- Modelled from the spec: representation-code-presence flag. -/
def has_attribute_R (cd : ComponentDescriptor) : Bool := cd.byte % 8 / 4 = 1

/-- Modelled from the spec: units-presence flag of an attribute. -/
def has_attribute_U (cd : ComponentDescriptor) : Bool := cd.byte % 4 / 2 = 1

/-- Modelled from the spec: value-presence flag of an attribute. -/
def has_attribute_V (cd : ComponentDescriptor) : Bool := cd.byte % 2 = 1

/-- Modelled from the spec: name-presence flag of a set descriptor. -/
def has_set_N (cd : ComponentDescriptor) : Bool := cd.byte % 16 / 8 = 1

end ComponentDescriptor

/-- Modelled from the spec: the object-name triple (origin, copy number,
identifier). -/
structure ObjectName where
  origin : Nat
  copy : Nat
  identifier : List Nat
deriving DecidableEq, Repr

/-- Modelled from the spec: a typed value produced by the representation
code decoders. -/
inductive Value where
  | vUshort : Nat → Value
  | vUvari : Nat → Value
  | vIdent : List Nat → Value
  | vObname : ObjectName → Value
  | vUnits : List Nat → Value
deriving DecidableEq, Repr

/-- Modelled from the spec: read a fixed number of raw bytes. -/
def readN : Nat → LogicalData → Except Err (List Nat × LogicalData)
  | 0, ld => .ok ([], ld)
  | n + 1, ld => do
    let (b, ld) ← ld.read
    let (bs, ld) ← readN n ld
    .ok (b :: bs, ld)

/-- Modelled from the spec: the fixed-width one-byte unsigned decoder. -/
def USHORT (ld : LogicalData) : Except Err (Nat × LogicalData) := ld.read

/-- Modelled from the spec: the unsigned variable-length integer decoder
(one, two or four bytes selected by the top bits of the first byte). -/
def UVARI (ld : LogicalData) : Except Err (Nat × LogicalData) := do
  let (b, ld) ← ld.read
  if b % 256 < 128 then .ok (b % 256, ld)
  else if b % 256 < 192 then do
    let (b2, ld) ← ld.read
    .ok ((b % 64) * 256 + b2 % 256, ld)
  else do
    let (b2, ld) ← ld.read
    let (b3, ld) ← ld.read
    let (b4, ld) ← ld.read
    .ok (((b % 64) * 256 + b2 % 256) * 65536 + (b3 % 256) * 256 + b4 % 256, ld)

/-- Modelled from the spec: the identifier decoder — a one-byte length
followed by that many character bytes. -/
def IDENT (ld : LogicalData) : Except Err (List Nat × LogicalData) := do
  let (n, ld) ← ld.read
  readN n ld

/-- Modelled from the spec: the units decoder — same wire shape as the
identifier decoder. -/
def UNITS (ld : LogicalData) : Except Err (List Nat × LogicalData) := do
  let (n, ld) ← ld.read
  readN n ld

/-- Modelled from the spec: the object-name decoder — origin (UVARI),
copy number (USHORT) and identifier (IDENT). -/
def OBNAME (ld : LogicalData) : Except Err (ObjectName × LogicalData) := do
  let (o, ld) ← UVARI ld
  let (c, ld) ← USHORT ld
  let (i, ld) ← IDENT ld
  .ok (⟨o, c, i⟩, ld)

/-- Modelled from the spec: the generic representation-code dispatcher
(code 15 USHORT, 18 UVARI, 19 IDENT, 23 OBNAME, 27 UNITS). -/
def code_read (c : Nat) (ld : LogicalData) : Except Err (Value × LogicalData) :=
  if c = 15 then do
    let (v, ld) ← USHORT ld
    .ok (.vUshort v, ld)
  else if c = 18 then do
    let (v, ld) ← UVARI ld
    .ok (.vUvari v, ld)
  else if c = 19 then do
    let (v, ld) ← IDENT ld
    .ok (.vIdent v, ld)
  else if c = 23 then do
    let (v, ld) ← OBNAME ld
    .ok (.vObname v, ld)
  else if c = 27 then do
    let (v, ld) ← UNITS ld
    .ok (.vUnits v, ld)
  else .error .unsupportedRepCode

/-- Modelled from the spec: global default for the label characteristic. -/
def defaultLabel : List Nat := []

/-- Modelled from the spec: global default for the count characteristic. -/
def defaultCount : Nat := 1

/-- Modelled from the spec: global default for the representation-code
characteristic (the identifier code). -/
def defaultRepCode : Nat := 19

/-- Modelled from the spec: global default for the units characteristic. -/
def defaultUnits : List Nat := []

/-- Modelled from the spec: global default for the value characteristic
(no value). -/
def defaultValue : Option (List Value) := none

/-- Modelled from the spec: global default for the optional set name. -/
def defaultSetName : List Nat := []

/-- Embeds the common shape of AttributeBase / TemplateAttribute /
Attribute of the source: the consumed Component Descriptor plus the five
resolved characteristics. -/
structure AttributeBase where
  component_descriptor : ComponentDescriptor
  label : List Nat
  count : Nat
  rep_code : Nat
  units : List Nat
  value : Option (List Value)
deriving DecidableEq, Repr

/-- Reads `n` values with the generic dispatcher at representation code
`rc`, as the list comprehension of the source's value branch. -/
def readValues (rc : Nat) : Nat → LogicalData → Except Err (List Value × LogicalData)
  | 0, ld => .ok ([], ld)
  | n + 1, ld => do
    let (v, ld) ← code_read rc ld
    let (vs, ld) ← readValues rc n ld
    .ok (v :: vs, ld)

/-- One characteristic of an attribute: parse it fresh with its decoder
when the presence flag is set, otherwise keep the inherited value. -/
def parseChar {α : Type} (flag : Bool)
    (dec : LogicalData → Except Err (α × LogicalData)) (inherited : α)
    (ld : LogicalData) : Except Err (α × LogicalData) :=
  if flag then dec ld else .ok (inherited, ld)

/-- The shared body of TemplateAttribute.__init__ and Attribute.__init__:
checks the attribute-group classification (AttributeBase.__init__), then
resolves label, count, representation code, units and value in wire order,
each either freshly parsed or inherited; the value list is decoded with
the attribute's own resolved representation code and count. -/
def makeAttr (cd : ComponentDescriptor) (label0 : List Nat) (count0 : Nat)
    (rep0 : Nat) (units0 : List Nat) (value0 : Option (List Value))
    (ld : LogicalData) : Except Err (AttributeBase × LogicalData) :=
  if cd.is_attribute_group then do
    let (label, ld) ← parseChar cd.has_attribute_L IDENT label0 ld
    let (count, ld) ← parseChar cd.has_attribute_C UVARI count0 ld
    let (rep_code, ld) ← parseChar cd.has_attribute_R USHORT rep0 ld
    let (units, ld) ← parseChar cd.has_attribute_U UNITS units0 ld
    let (value, ld) ← parseChar cd.has_attribute_V
      (fun ld => do
        let (vs, ld) ← readValues rep_code count ld
        .ok (some vs, ld))
      value0 ld
    .ok (⟨cd, label, count, rep_code, units, value⟩, ld)
  else .error .attributeFormat

/-- TemplateAttribute.__init__: characteristics not on the wire take the
global defaults. -/
def TemplateAttribute.make (cd : ComponentDescriptor) (ld : LogicalData) :
    Except Err (AttributeBase × LogicalData) :=
  makeAttr cd defaultLabel defaultCount defaultRepCode defaultUnits defaultValue ld

/-- Attribute.__init__: characteristics not on the wire are copied from
the corresponding Template Attribute. -/
def Attribute.make (cd : ComponentDescriptor) (ld : LogicalData)
    (ta : AttributeBase) : Except Err (AttributeBase × LogicalData) :=
  makeAttr cd ta.label ta.count ta.rep_code ta.units ta.value ld

/-- Template of the source: the ordered sequence of Template Attributes. -/
structure Template where
  attrs : List AttributeBase
deriving DecidableEq, Repr

/-- The while-loop of Template.__init__: read a descriptor (it must
classify as attribute, else TemplateFormatError), parse one Template
Attribute, then peek the next descriptor and stop — without consuming the
peeked byte — when it classifies as Object. -/
def Template.loop : Nat → List AttributeBase → LogicalData →
    Except Err (List AttributeBase × LogicalData)
  | 0, _, _ => .error .fuelExhausted
  | fuel + 1, acc, ld => do
    let (b, ld1) ← ld.read
    let cd : ComponentDescriptor := ⟨b⟩
    if cd.is_attribute_group then do
      let (ta, ld2) ← TemplateAttribute.make cd ld1
      let nb ← ld2.peek
      if (ComponentDescriptor.mk nb).is_object then .ok (acc ++ [ta], ld2)
      else Template.loop fuel (acc ++ [ta]) ld2
    else .error .templateFormat

/-- Template.__init__. -/
def Template.make (ld : LogicalData) : Except Err (Template × LogicalData) := do
  let (attrs, ld) ← Template.loop (ld.remain + 1) [] ld
  .ok (⟨attrs⟩, ld)

/-- Object of the source: the object name and the reconciled per-slot
entries (none models the Python None appended at absent slots). -/
structure Object where
  name : ObjectName
  attrs : List (Option AttributeBase)
deriving DecidableEq, Repr

/-- The while-loop of Object.__init__: read a descriptor (it must classify
as attribute, else ObjectFormatError), branch on the classification of the
Template Attribute at the current slot — append the Template Attribute
itself when it is invariant, a null when it is absent, a freshly built
Attribute otherwise — and, only after appending a fresh Attribute, stop
when the cursor is exhausted or the peeked next descriptor classifies as
Object.  The template access is partial: an out-of-range slot is the
Python IndexError. -/
def Object.loop (tattrs : List AttributeBase) :
    Nat → Nat → List (Option AttributeBase) → LogicalData →
    Except Err (List (Option AttributeBase) × LogicalData)
  | 0, _, _, _ => .error .fuelExhausted
  | fuel + 1, index, acc, ld => do
    let (b, ld1) ← ld.read
    let cd : ComponentDescriptor := ⟨b⟩
    if cd.is_attribute_group then
      match tattrs[index]? with
      | none => .error .indexError
      | some ta =>
        if ta.component_descriptor.is_invariant_attribute then
          Object.loop tattrs fuel (index + 1) (acc ++ [some ta]) ld1
        else if ta.component_descriptor.is_absent_attribute then
          Object.loop tattrs fuel (index + 1) (acc ++ [none]) ld1
        else do
          let (a, ld2) ← Attribute.make cd ld1 ta
          if ld2.remain = 0 then .ok (acc ++ [some a], ld2)
          else do
            let nb ← ld2.peek
            if (ComponentDescriptor.mk nb).is_object then .ok (acc ++ [some a], ld2)
            else Object.loop tattrs fuel (index + 1) (acc ++ [some a]) ld2
    else .error .objectFormat

/-- The padding loop of Object.__init__: while the attribute list is
shorter than the template, append the template attribute at the current
length.  The fuel is the template length, which dominates the number of
iterations. -/
def padLoop : Nat → List AttributeBase → List (Option AttributeBase) →
    List (Option AttributeBase)
  | 0, _, attrs => attrs
  | fuel + 1, tattrs, attrs =>
    if h : attrs.length < tattrs.length then
      padLoop fuel tattrs (attrs ++ [some (tattrs.get ⟨attrs.length, h⟩)])
    else attrs

/-- Object.__init__: one Object-classified descriptor, the OBNAME, the
per-slot loop, the padding loop, and the final count check that raises
ObjectFormatError on a mismatch. -/
def Object.make (ld : LogicalData) (template : Template) :
    Except Err (Object × LogicalData) := do
  let (b, ld1) ← ld.read
  if (ComponentDescriptor.mk b).is_object then do
    let (name, ld2) ← OBNAME ld1
    let (attrs, ld3) ← Object.loop template.attrs (ld2.remain + 1) 0 [] ld2
    let attrs2 := padLoop template.attrs.length template.attrs attrs
    if template.attrs.length ≠ attrs2.length then .error .objectFormat
    else .ok (⟨name, attrs2⟩, ld3)
  else .error .objectFormat

/-- Set of the source: the type identifier and the (possibly defaulted)
set name. -/
structure Set where
  type : List Nat
  name : List Nat
deriving DecidableEq, Repr

/-- Set.__init__: one descriptor that must classify as a set (else
SetFormatError), the type identifier, and the name identifier only when
the name-presence flag is set, the global default otherwise. -/
def Set.make (ld : LogicalData) : Except Err (Set × LogicalData) := do
  let (b, ld1) ← ld.read
  let cd : ComponentDescriptor := ⟨b⟩
  if cd.is_set_group then do
    let (ty, ld2) ← IDENT ld1
    if cd.has_set_N then do
      let (nm, ld3) ← IDENT ld2
      .ok (⟨ty, nm⟩, ld3)
    else .ok (⟨ty, defaultSetName⟩, ld2)
  else .error .setFormat

/-- ExplicitlyFormattedLogicalRecord of the source. -/
structure ExplicitlyFormattedLogicalRecord where
  set : Set
  template : Template
  objects : List Object
deriving DecidableEq, Repr

/-- The while-loop of ExplicitlyFormattedLogicalRecord.__init__: parse
Objects against the shared template while the cursor has bytes left. -/
def objLoop (t : Template) : Nat → List Object → LogicalData →
    Except Err (List Object × LogicalData)
  | 0, _, _ => .error .fuelExhausted
  | fuel + 1, acc, ld =>
    if ld.remain ≠ 0 then do
      let (o, ld') ← Object.make ld t
      objLoop t fuel (acc ++ [o]) ld'
    else .ok (acc, ld)

/-- ExplicitlyFormattedLogicalRecord.__init__: exactly one Set, then
exactly one Template, then Objects until the cursor is exhausted. -/
def ExplicitlyFormattedLogicalRecord.make (ld : LogicalData) :
    Except Err (ExplicitlyFormattedLogicalRecord × LogicalData) := do
  let (s, ld1) ← Set.make ld
  let (t, ld2) ← Template.make ld1
  let (objs, ld3) ← objLoop t (ld2.remain + 1) [] ld2
  .ok (⟨s, t, objs⟩, ld3)

/-- ExplicitlyFormattedLogicalRecord.__len__. -/
def ExplicitlyFormattedLogicalRecord.length
    (e : ExplicitlyFormattedLogicalRecord) : Nat := e.objects.length

/-- ExplicitlyFormattedLogicalRecord.__getitem__. -/
def ExplicitlyFormattedLogicalRecord.getObject
    (e : ExplicitlyFormattedLogicalRecord) (i : Nat) : Option Object :=
  e.objects[i]?

/-- IndirectlyFormattedLogicalRecord of the source: only the
data-descriptor reference is parsed. -/
structure IndirectlyFormattedLogicalRecord where
  data_descriptor_reference : ObjectName
deriving DecidableEq, Repr

/-- IndirectlyFormattedLogicalRecord.__init__. -/
def IndirectlyFormattedLogicalRecord.make (ld : LogicalData) :
    Except Err (IndirectlyFormattedLogicalRecord × LogicalData) := do
  let (n, ld') ← OBNAME ld
  .ok (⟨n⟩, ld')

/-- A one-slot template fixture: one normal (attribute-classified,
non-invariant, non-absent) slot whose label is present on the wire. -/
def ta1 : AttributeBase := ⟨⟨48⟩, [65], 1, 19, [], none⟩

/-- An absent-classified template attribute fixture (descriptor byte 0). -/
def taAbs : AttributeBase := ⟨⟨0⟩, [], 1, 19, [], none⟩

/-- An invariant-classified template attribute fixture (role bits 2). -/
def taInv : AttributeBase := ⟨⟨64⟩, [65], 1, 19, [], none⟩

/-- The attribute parsed by the one-object fixtures: value flag only,
value decoded with the inherited identifier code and inherited count 1. -/
def a1 : AttributeBase := ⟨⟨33⟩, [65], 1, 19, [], some [.vIdent [79]]⟩

/-- One-slot template fixture. -/
def tmpl1 : Template := ⟨[ta1]⟩

/-- Two-slot template fixture: a normal slot followed by an
absent-classified slot. -/
def tmpl2 : Template := ⟨[ta1, taAbs]⟩

theorem okBind {α β : Type} (a : α) (f : α → Except Err β) :
    ((Except.ok a : Except Err α) >>= f) = f a := rfl

theorem errBind {α β : Type} (e : Err) (f : α → Except Err β) :
    ((Except.error e : Except Err α) >>= f) = .error e := rfl

theorem bindE_ok {α β : Type} {e : Except Err α} {f : α → Except Err β} {r : β}
    (h : (e >>= f) = .ok r) : ∃ a, e = .ok a ∧ f a = .ok r := by
  cases e with
  | error err => rw [errBind] at h; exact absurd h (by simp)
  | ok a => rw [okBind] at h; exact ⟨a, rfl, h⟩

theorem bindE_error {α β : Type} {e : Except Err α} {f : α → Except Err β}
    {err : Err} (h : (e >>= f) = .error err) :
    e = .error err ∨ ∃ a, e = .ok a ∧ f a = .error err := by
  cases e with
  | error e2 =>
    rw [errBind] at h
    injection h with h2
    left; rw [h2]
  | ok a => right; exact ⟨a, rfl, by rwa [okBind] at h⟩

theorem read_ok {ld : LogicalData} {b : Nat} {ld' : LogicalData}
    (h : ld.read = .ok (b, ld')) :
    ld.bytes[ld.index]? = some b ∧ ld' = ⟨ld.bytes, ld.index + 1⟩ := by
  unfold LogicalData.read at h
  cases hg : ld.bytes[ld.index]? with
  | none => rw [hg] at h; exact absurd h (by simp)
  | some b2 =>
    rw [hg] at h
    simp only [Except.ok.injEq, Prod.mk.injEq] at h
    obtain ⟨h1, h2⟩ := h
    subst h1
    exact ⟨rfl, h2.symm⟩

theorem read_ok_index {ld : LogicalData} {b : Nat} {ld' : LogicalData}
    (h : ld.read = .ok (b, ld')) :
    ld.index < ld.bytes.length ∧ ld'.bytes = ld.bytes ∧
      ld'.index = ld.index + 1 ∧ ld.remain = ld'.remain + 1 := by
  obtain ⟨hg, rfl⟩ := read_ok h
  rw [List.getElem?_eq_some] at hg
  obtain ⟨hlt, _⟩ := hg
  refine ⟨hlt, rfl, rfl, ?_⟩
  simp only [LogicalData.remain]
  omega

theorem read_error {ld : LogicalData} {e : Err} (h : ld.read = .error e) :
    e = .cursorExhausted := by
  unfold LogicalData.read at h
  cases hg : ld.bytes[ld.index]? with
  | none =>
    rw [hg] at h
    injection h with h2
    rw [h2]
  | some b2 => rw [hg] at h; exact absurd h (by simp)

theorem peek_ok {ld : LogicalData} {b : Nat} (h : ld.peek = .ok b) :
    ld.bytes[ld.index]? = some b := by
  unfold LogicalData.peek at h
  cases hg : ld.bytes[ld.index]? with
  | none => rw [hg] at h; exact absurd h (by simp)
  | some b2 => rw [hg] at h; simp only [Except.ok.injEq] at h; rw [h]

theorem peek_ok_pos {ld : LogicalData} {b : Nat} (h : ld.peek = .ok b) :
    0 < ld.remain := by
  have hg := peek_ok h
  rw [List.getElem?_eq_some] at hg
  obtain ⟨hlt, _⟩ := hg
  simp only [LogicalData.remain]
  omega

theorem peek_of_remain_pos {ld : LogicalData} (h : 0 < ld.remain) :
    ∃ b, ld.peek = .ok b := by
  simp only [LogicalData.remain] at h
  have hlt : ld.index < ld.bytes.length := by omega
  refine ⟨ld.bytes[ld.index], ?_⟩
  unfold LogicalData.peek
  rw [List.getElem?_eq_getElem hlt]

theorem parseChar_ok {α : Type} {flag : Bool}
    {dec : LogicalData → Except Err (α × LogicalData)} {inh : α}
    {ld : LogicalData} {v : α} {ld' : LogicalData}
    (h : parseChar flag dec inh ld = .ok (v, ld')) :
    (flag = true ∧ dec ld = .ok (v, ld')) ∨
      (flag = false ∧ v = inh ∧ ld' = ld) := by
  unfold parseChar at h
  cases flag with
  | false =>
    simp only [Bool.false_eq_true, if_false, Except.ok.injEq, Prod.mk.injEq] at h
    exact Or.inr ⟨rfl, h.1.symm, h.2.symm⟩
  | true => exact Or.inl ⟨rfl, by simpa using h⟩

theorem readValues_length {rc : Nat} :
    ∀ {n : Nat} {ld : LogicalData} {vs : List Value} {ld' : LogicalData},
      readValues rc n ld = .ok (vs, ld') → vs.length = n := by
  intro n
  induction n with
  | zero =>
    intro ld vs ld' h
    unfold readValues at h
    simp only [Except.ok.injEq, Prod.mk.injEq] at h
    rw [← h.1]
    rfl
  | succ n ih =>
    intro ld vs ld' h
    unfold readValues at h
    obtain ⟨⟨v, ld1⟩, _, h⟩ := bindE_ok h
    obtain ⟨⟨vs2, ld2⟩, h2, h3⟩ := bindE_ok h
    simp only [Except.ok.injEq, Prod.mk.injEq] at h3
    rw [← h3.1, List.length_cons, ih h2]

theorem readN_error {e : Err} :
    ∀ {n : Nat} {ld : LogicalData}, readN n ld = .error e →
      e = .cursorExhausted := by
  intro n
  induction n with
  | zero => intro ld h; exact absurd h (by simp [readN])
  | succ n ih =>
    intro ld h
    unfold readN at h
    rcases bindE_error h with h1 | ⟨⟨b, ld1⟩, _, h1⟩
    · exact read_error h1
    · rcases bindE_error h1 with h2 | ⟨⟨bs, ld2⟩, _, h2⟩
      · exact ih h2
      · exact absurd h2 (by simp)

theorem IDENT_error {ld : LogicalData} {e : Err} (h : IDENT ld = .error e) :
    e = .cursorExhausted := by
  unfold IDENT at h
  rcases bindE_error h with h1 | ⟨⟨n, ld1⟩, _, h1⟩
  · exact read_error h1
  · exact readN_error h1

theorem makeAttr_ok {cd : ComponentDescriptor} {label0 : List Nat}
    {count0 : Nat} {rep0 : Nat} {units0 : List Nat}
    {value0 : Option (List Value)} {ld : LogicalData} {a : AttributeBase}
    {ldf : LogicalData}
    (h : makeAttr cd label0 count0 rep0 units0 value0 ld = .ok (a, ldf)) :
    cd.is_attribute_group = true ∧ a.component_descriptor = cd ∧
    ∃ ld1 ld2 ld3 ld4,
      parseChar cd.has_attribute_L IDENT label0 ld = .ok (a.label, ld1) ∧
      parseChar cd.has_attribute_C UVARI count0 ld1 = .ok (a.count, ld2) ∧
      parseChar cd.has_attribute_R USHORT rep0 ld2 = .ok (a.rep_code, ld3) ∧
      parseChar cd.has_attribute_U UNITS units0 ld3 = .ok (a.units, ld4) ∧
      parseChar cd.has_attribute_V
        (fun ld => do
          let (vs, ld) ← readValues a.rep_code a.count ld
          .ok (some vs, ld))
        value0 ld4 = .ok (a.value, ldf) := by
  unfold makeAttr at h
  cases hattr : cd.is_attribute_group with
  | false => rw [hattr] at h; exact absurd h (by simp)
  | true =>
    rw [hattr] at h
    simp only [if_true] at h
    obtain ⟨⟨label, ld1⟩, h1, h⟩ := bindE_ok h
    obtain ⟨⟨count, ld2⟩, h2, h⟩ := bindE_ok h
    obtain ⟨⟨rep_code, ld3⟩, h3, h⟩ := bindE_ok h
    obtain ⟨⟨units, ld4⟩, h4, h⟩ := bindE_ok h
    obtain ⟨⟨value, ld5⟩, h5, h⟩ := bindE_ok h
    simp only [Except.ok.injEq, Prod.mk.injEq] at h
    obtain ⟨ha, hld⟩ := h
    subst hld
    rw [← ha]
    exact ⟨rfl, rfl, ld1, ld2, ld3, ld4, h1, h2, h3, h4, h5⟩

theorem objectLoop_invariant_step {tattrs : List AttributeBase}
    {fuel index : Nat} {acc : List (Option AttributeBase)}
    {ld ld1 : LogicalData} {b : Nat} {ta : AttributeBase}
    (hread : ld.read = .ok (b, ld1))
    (hattr : (ComponentDescriptor.mk b).is_attribute_group = true)
    (hidx : tattrs[index]? = some ta)
    (hinv : ta.component_descriptor.is_invariant_attribute = true) :
    Object.loop tattrs (fuel + 1) index acc ld =
      Object.loop tattrs fuel (index + 1) (acc ++ [some ta]) ld1 := by
  simp [Object.loop, hread, okBind, hattr, hidx, hinv]

theorem objectLoop_absent_step {tattrs : List AttributeBase}
    {fuel index : Nat} {acc : List (Option AttributeBase)}
    {ld ld1 : LogicalData} {b : Nat} {ta : AttributeBase}
    (hread : ld.read = .ok (b, ld1))
    (hattr : (ComponentDescriptor.mk b).is_attribute_group = true)
    (hidx : tattrs[index]? = some ta)
    (hninv : ta.component_descriptor.is_invariant_attribute = false)
    (habs : ta.component_descriptor.is_absent_attribute = true) :
    Object.loop tattrs (fuel + 1) index acc ld =
      Object.loop tattrs fuel (index + 1) (acc ++ [none]) ld1 := by
  simp [Object.loop, hread, okBind, hattr, hidx, hninv, habs]

theorem objectLoop_nonattribute {tattrs : List AttributeBase}
    {fuel index : Nat} {acc : List (Option AttributeBase)}
    {ld ld1 : LogicalData} {b : Nat}
    (hread : ld.read = .ok (b, ld1))
    (hattr : (ComponentDescriptor.mk b).is_attribute_group = false) :
    Object.loop tattrs (fuel + 1) index acc ld = .error .objectFormat := by
  simp [Object.loop, hread, okBind, hattr]

theorem objectLoop_exhausted {tattrs : List AttributeBase}
    {fuel index : Nat} {acc : List (Option AttributeBase)} {ld : LogicalData}
    (hread : ld.read = .error .cursorExhausted) :
    Object.loop tattrs (fuel + 1) index acc ld = .error .cursorExhausted := by
  simp [Object.loop, hread, errBind]

theorem objectLoop_succ_inv {tattrs : List AttributeBase} {fuel index : Nat}
    {acc attrs : List (Option AttributeBase)} {ld ldf : LogicalData}
    (h : Object.loop tattrs (fuel + 1) index acc ld = .ok (attrs, ldf)) :
    ∃ b ld1 ta, ld.read = .ok (b, ld1) ∧
      (ComponentDescriptor.mk b).is_attribute_group = true ∧
      tattrs[index]? = some ta ∧
      ((ta.component_descriptor.is_invariant_attribute = true ∧
          Object.loop tattrs fuel (index + 1) (acc ++ [some ta]) ld1 =
            .ok (attrs, ldf)) ∨
        (ta.component_descriptor.is_invariant_attribute = false ∧
          ta.component_descriptor.is_absent_attribute = true ∧
          Object.loop tattrs fuel (index + 1) (acc ++ [none]) ld1 =
            .ok (attrs, ldf)) ∨
        (ta.component_descriptor.is_invariant_attribute = false ∧
          ta.component_descriptor.is_absent_attribute = false ∧
          ∃ a ld2, Attribute.make ⟨b⟩ ld1 ta = .ok (a, ld2) ∧
            ((ld2.remain = 0 ∧ attrs = acc ++ [some a] ∧ ldf = ld2) ∨
              (ld2.remain ≠ 0 ∧ ∃ nb, ld2.peek = .ok nb ∧
                (((ComponentDescriptor.mk nb).is_object = true ∧
                    attrs = acc ++ [some a] ∧ ldf = ld2) ∨
                  ((ComponentDescriptor.mk nb).is_object = false ∧
                    Object.loop tattrs fuel (index + 1) (acc ++ [some a]) ld2 =
                      .ok (attrs, ldf))))))) := by
  rw [Object.loop] at h
  obtain ⟨⟨b, ld1⟩, hread, h⟩ := bindE_ok h
  refine ⟨b, ld1, ?_⟩
  cases hattr : (ComponentDescriptor.mk b).is_attribute_group with
  | false => simp only [hattr, Bool.false_eq_true, if_false] at h; exact absurd h (by simp)
  | true =>
    simp only [hattr, if_true] at h
    cases hidx : tattrs[index]? with
    | none => rw [hidx] at h; exact absurd h (by simp)
    | some ta =>
      rw [hidx] at h
      simp only [] at h
      refine ⟨ta, hread, rfl, rfl, ?_⟩
      cases hinv : ta.component_descriptor.is_invariant_attribute with
      | true =>
        simp only [hinv, if_true] at h
        exact Or.inl ⟨rfl, h⟩
      | false =>
        simp only [hinv, Bool.false_eq_true, if_false] at h
        cases habs : ta.component_descriptor.is_absent_attribute with
        | true =>
          simp only [habs, if_true] at h
          exact Or.inr (Or.inl ⟨rfl, rfl, h⟩)
        | false =>
          simp only [habs, Bool.false_eq_true, if_false] at h
          obtain ⟨⟨a, ld2⟩, hmk, h⟩ := bindE_ok h
          refine Or.inr (Or.inr ⟨rfl, rfl, a, ld2, hmk, ?_⟩)
          by_cases hrem : ld2.remain = 0
          · simp only [hrem, if_true] at h
            simp only [Except.ok.injEq, Prod.mk.injEq] at h
            exact Or.inl ⟨hrem, h.1.symm, h.2.symm⟩
          · simp only [hrem, if_false] at h
            obtain ⟨nb, hpeek, h⟩ := bindE_ok h
            refine Or.inr ⟨hrem, nb, hpeek, ?_⟩
            cases hobj : (ComponentDescriptor.mk nb).is_object with
            | true =>
              simp only [hobj, if_true] at h
              simp only [Except.ok.injEq, Prod.mk.injEq] at h
              exact Or.inl ⟨rfl, h.1.symm, h.2.symm⟩
            | false =>
              simp only [hobj, Bool.false_eq_true, if_false] at h
              exact Or.inr ⟨rfl, h⟩

theorem objectLoop_prefix {tattrs : List AttributeBase} :
    ∀ {fuel index : Nat} {acc attrs : List (Option AttributeBase)}
      {ld ldf : LogicalData},
      Object.loop tattrs fuel index acc ld = .ok (attrs, ldf) →
      ∃ ext, attrs = acc ++ ext ∧ ext ≠ [] := by
  intro fuel
  induction fuel with
  | zero => intro index acc attrs ld ldf h; exact absurd h (by simp [Object.loop])
  | succ fuel ih =>
    intro index acc attrs ld ldf h
    obtain ⟨b, ld1, ta, _, _, _, hcase⟩ := objectLoop_succ_inv h
    rcases hcase with ⟨_, hrec⟩ | ⟨_, _, hrec⟩ |
      ⟨_, _, a, ld2, _, ⟨_, heq, _⟩ | ⟨_, nb, _, ⟨_, heq, _⟩ | ⟨_, hrec⟩⟩⟩
    · obtain ⟨ext, hext, _⟩ := ih hrec
      exact ⟨some ta :: ext, by simpa using hext, by simp⟩
    · obtain ⟨ext, hext, _⟩ := ih hrec
      exact ⟨none :: ext, by simpa using hext, by simp⟩
    · exact ⟨[some a], heq, by simp⟩
    · exact ⟨[some a], heq, by simp⟩
    · obtain ⟨ext, hext, _⟩ := ih hrec
      exact ⟨some a :: ext, by simpa using hext, by simp⟩

theorem objectLoop_length {tattrs : List AttributeBase} :
    ∀ {fuel index : Nat} {acc attrs : List (Option AttributeBase)}
      {ld ldf : LogicalData},
      acc.length = index →
      Object.loop tattrs fuel index acc ld = .ok (attrs, ldf) →
      attrs.length ≤ tattrs.length := by
  intro fuel
  induction fuel with
  | zero => intro index acc attrs ld ldf _ h; exact absurd h (by simp [Object.loop])
  | succ fuel ih =>
    intro index acc attrs ld ldf hlen h
    obtain ⟨b, ld1, ta, _, _, hidx, hcase⟩ := objectLoop_succ_inv h
    have hlt : index < tattrs.length := by
      rw [List.getElem?_eq_some] at hidx
      exact hidx.1
    rcases hcase with ⟨_, hrec⟩ | ⟨_, _, hrec⟩ |
      ⟨_, _, a, ld2, _, ⟨_, heq, _⟩ | ⟨_, nb, _, ⟨_, heq, _⟩ | ⟨_, hrec⟩⟩⟩
    · exact ih (by simp [hlen]) hrec
    · exact ih (by simp [hlen]) hrec
    · rw [heq]; simp; omega
    · rw [heq]; simp; omega
    · exact ih (by simp [hlen]) hrec

theorem objectLoop_stop {tattrs : List AttributeBase} :
    ∀ {fuel index : Nat} {acc attrs : List (Option AttributeBase)}
      {ld ldf : LogicalData},
      Object.loop tattrs fuel index acc ld = .ok (attrs, ldf) →
      ldf.remain = 0 ∨
        ∃ nb, ldf.peek = .ok nb ∧ (ComponentDescriptor.mk nb).is_object = true := by
  intro fuel
  induction fuel with
  | zero => intro index acc attrs ld ldf h; exact absurd h (by simp [Object.loop])
  | succ fuel ih =>
    intro index acc attrs ld ldf h
    obtain ⟨b, ld1, ta, _, _, _, hcase⟩ := objectLoop_succ_inv h
    rcases hcase with ⟨_, hrec⟩ | ⟨_, _, hrec⟩ |
      ⟨_, _, a, ld2, _, ⟨hrem, _, hldf⟩ | ⟨_, nb, hpeek, ⟨hobj, _, hldf⟩ | ⟨_, hrec⟩⟩⟩
    · exact ih hrec
    · exact ih hrec
    · rw [hldf]; exact Or.inl hrem
    · rw [hldf]; exact Or.inr ⟨nb, hpeek, hobj⟩
    · exact ih hrec

/-- The slot bookkeeping preserved by the per-object loop: at every slot
already reconciled, an invariant-classified template slot holds the
template attribute itself and an absent-classified slot holds null. -/
def SlotsOk (tattrs : List AttributeBase)
    (l : List (Option AttributeBase)) : Prop :=
  ∀ j ta, tattrs[j]? = some ta → j < l.length →
    (ta.component_descriptor.is_invariant_attribute = true →
      l[j]? = some (some ta)) ∧
    (ta.component_descriptor.is_absent_attribute = true → l[j]? = some none)

theorem SlotsOk.push {tattrs : List AttributeBase}
    {acc : List (Option AttributeBase)} {ta : AttributeBase}
    {x : Option AttributeBase}
    (hs : SlotsOk tattrs acc) (hidx : tattrs[acc.length]? = some ta)
    (hx : (ta.component_descriptor.is_invariant_attribute = true →
        x = some ta) ∧
      (ta.component_descriptor.is_absent_attribute = true → x = none)) :
    SlotsOk tattrs (acc ++ [x]) := by
  intro j ta2 hj hlen
  simp only [List.length_append, List.length_cons, List.length_nil] at hlen
  by_cases hcase : j < acc.length
  · have hget : (acc ++ [x])[j]? = acc[j]? := by
      rw [List.getElem?_append]
      simp [hcase]
    have := hs j ta2 hj hcase
    exact ⟨fun hi => by rw [hget]; exact (this.1 hi),
      fun ha => by rw [hget]; exact (this.2 ha)⟩
  · have hjeq : j = acc.length := by omega
    subst hjeq
    rw [hidx] at hj
    injection hj with hta
    subst hta
    have hget : (acc ++ [x])[acc.length]? = some x := by simp
    exact ⟨fun hi => by rw [hget, hx.1 hi], fun ha => by rw [hget, hx.2 ha]⟩

theorem invariant_not_absent {cd : ComponentDescriptor}
    (h : cd.is_invariant_attribute = true) :
    cd.is_absent_attribute = false := by
  simp only [ComponentDescriptor.is_invariant_attribute,
    decide_eq_true_eq] at h
  simp only [ComponentDescriptor.is_absent_attribute, decide_eq_false_iff_not]
  omega

theorem objectLoop_slots {tattrs : List AttributeBase} :
    ∀ {fuel index : Nat} {acc attrs : List (Option AttributeBase)}
      {ld ldf : LogicalData},
      acc.length = index → SlotsOk tattrs acc →
      Object.loop tattrs fuel index acc ld = .ok (attrs, ldf) →
      SlotsOk tattrs attrs := by
  intro fuel
  induction fuel with
  | zero => intro index acc attrs ld ldf _ _ h; exact absurd h (by simp [Object.loop])
  | succ fuel ih =>
    intro index acc attrs ld ldf hlen hs h
    obtain ⟨b, ld1, ta, _, _, hidx, hcase⟩ := objectLoop_succ_inv h
    rw [← hlen] at hidx
    rcases hcase with ⟨hinv, hrec⟩ | ⟨hninv, habs, hrec⟩ |
      ⟨hninv, hnabs, a, ld2, _, ⟨_, heq, _⟩ | ⟨_, nb, _, ⟨_, heq, _⟩ | ⟨_, hrec⟩⟩⟩
    · refine ih (by simp [hlen]) (hs.push hidx ⟨fun _ => rfl, fun ha => ?_⟩) hrec
      rw [invariant_not_absent hinv] at ha
      exact absurd ha (by simp)
    · refine ih (by simp [hlen]) (hs.push hidx ⟨fun hi => ?_, fun _ => rfl⟩) hrec
      rw [hninv] at hi
      exact absurd hi (by simp)
    · subst heq
      refine hs.push hidx ⟨fun hi => ?_, fun ha => ?_⟩
      · rw [hninv] at hi; exact absurd hi (by simp)
      · rw [hnabs] at ha; exact absurd ha (by simp)
    · subst heq
      refine hs.push hidx ⟨fun hi => ?_, fun ha => ?_⟩
      · rw [hninv] at hi; exact absurd hi (by simp)
      · rw [hnabs] at ha; exact absurd ha (by simp)
    · refine ih (by simp [hlen]) (hs.push hidx ⟨fun hi => ?_, fun ha => ?_⟩) hrec
      · rw [hninv] at hi; exact absurd hi (by simp)
      · rw [hnabs] at ha; exact absurd ha (by simp)

theorem objectLoop_normal_exit {tattrs : List AttributeBase} :
    ∀ {fuel index : Nat} {acc attrs : List (Option AttributeBase)}
      {ld ldf : LogicalData},
      acc.length = index →
      Object.loop tattrs fuel index acc ld = .ok (attrs, ldf) →
      ∃ j ta a, tattrs[j]? = some ta ∧
        ta.component_descriptor.is_invariant_attribute = false ∧
        ta.component_descriptor.is_absent_attribute = false ∧
        attrs.length = j + 1 ∧ attrs[j]? = some (some a) := by
  intro fuel
  induction fuel with
  | zero => intro index acc attrs ld ldf _ h; exact absurd h (by simp [Object.loop])
  | succ fuel ih =>
    intro index acc attrs ld ldf hlen h
    obtain ⟨b, ld1, ta, _, _, hidx, hcase⟩ := objectLoop_succ_inv h
    rcases hcase with ⟨_, hrec⟩ | ⟨_, _, hrec⟩ |
      ⟨hninv, hnabs, a, ld2, _, ⟨_, heq, _⟩ | ⟨_, nb, _, ⟨_, heq, _⟩ | ⟨_, hrec⟩⟩⟩
    · exact ih (by simp [hlen]) hrec
    · exact ih (by simp [hlen]) hrec
    · subst heq
      refine ⟨index, ta, a, hidx, hninv, hnabs, by simp [hlen], ?_⟩
      rw [← hlen]
      simp
    · subst heq
      refine ⟨index, ta, a, hidx, hninv, hnabs, by simp [hlen], ?_⟩
      rw [← hlen]
      simp
    · exact ih (by simp [hlen]) hrec

theorem padLoop_spec :
    ∀ (fuel : Nat) (tattrs : List AttributeBase)
      (attrs : List (Option AttributeBase)),
      tattrs.length - attrs.length ≤ fuel →
      padLoop fuel tattrs attrs =
        attrs ++ (tattrs.drop attrs.length).map some := by
  intro fuel
  induction fuel with
  | zero =>
    intro t a h
    rw [padLoop, List.drop_eq_nil_of_le (by omega)]
    simp
  | succ fuel ih =>
    intro t a h
    rw [padLoop]
    by_cases hlt : a.length < t.length
    · rw [dif_pos hlt, ih _ _ (by simp; omega)]
      simp
      conv_rhs => rw [List.drop_eq_getElem_cons (by simpa using hlt)]
      simp
    · rw [dif_neg hlt, List.drop_eq_nil_of_le (by omega)]
      simp

theorem padLoop_length {tattrs : List AttributeBase}
    {attrs : List (Option AttributeBase)}
    (h : attrs.length ≤ tattrs.length) :
    (padLoop tattrs.length tattrs attrs).length = tattrs.length := by
  rw [padLoop_spec _ _ _ (by omega)]
  simp
  omega

theorem nilLen : ([] : List (Option AttributeBase)).length = 0 := rfl

theorem objectMake_inv {ld : LogicalData} {template : Template}
    {o : Object} {ldf : LogicalData}
    (h : Object.make ld template = .ok (o, ldf)) :
    ∃ b ld1 nm ld2 attrs,
      ld.read = .ok (b, ld1) ∧
      (ComponentDescriptor.mk b).is_object = true ∧
      OBNAME ld1 = .ok (nm, ld2) ∧
      Object.loop template.attrs (ld2.remain + 1) 0 [] ld2 = .ok (attrs, ldf) ∧
      o = ⟨nm, attrs ++ (template.attrs.drop attrs.length).map some⟩ ∧
      attrs.length ≤ template.attrs.length := by
  unfold Object.make at h
  obtain ⟨⟨b, ld1⟩, hread, h⟩ := bindE_ok h
  cases hobj : (ComponentDescriptor.mk b).is_object with
  | false =>
    simp only [hobj, Bool.false_eq_true, if_false] at h
    exact absurd h (by simp)
  | true =>
    simp only [hobj, if_true] at h
    obtain ⟨⟨nm, ld2⟩, hname, h⟩ := bindE_ok h
    obtain ⟨⟨attrs, ld3⟩, hloop0, h⟩ := bindE_ok h
    have hloop : Object.loop template.attrs (ld2.remain + 1) 0 [] ld2 =
        .ok (attrs, ld3) := hloop0
    have hlen : attrs.length ≤ template.attrs.length :=
      objectLoop_length nilLen hloop
    replace h :
        (if template.attrs.length ≠
            (padLoop template.attrs.length template.attrs attrs).length then
          (Except.error Err.objectFormat : Except Err (Object × LogicalData))
        else
          .ok (⟨nm, padLoop template.attrs.length template.attrs attrs⟩, ld3)) =
          .ok (o, ldf) := h
    rw [padLoop_spec _ _ _ (by omega)] at h
    have hlen2 :
        (attrs ++ (template.attrs.drop attrs.length).map some).length =
          template.attrs.length := by
      simp
      omega
    rw [if_neg (by omega)] at h
    simp only [Except.ok.injEq, Prod.mk.injEq] at h
    obtain ⟨ho, hldf⟩ := h
    subst hldf
    exact ⟨b, ld1, nm, ld2, attrs, hread, hobj, hname, hloop, ho.symm, hlen⟩

theorem templateLoop_nonattribute {fuel : Nat} {acc : List AttributeBase}
    {ld ld1 : LogicalData} {b : Nat}
    (hread : ld.read = .ok (b, ld1))
    (hattr : (ComponentDescriptor.mk b).is_attribute_group = false) :
    Template.loop (fuel + 1) acc ld = .error .templateFormat := by
  simp [Template.loop, hread, okBind, hattr]

theorem templateLoop_succ_inv {fuel : Nat} {acc attrs : List AttributeBase}
    {ld ldf : LogicalData}
    (h : Template.loop (fuel + 1) acc ld = .ok (attrs, ldf)) :
    ∃ b ld1 ta ld2 nb, ld.read = .ok (b, ld1) ∧
      (ComponentDescriptor.mk b).is_attribute_group = true ∧
      TemplateAttribute.make ⟨b⟩ ld1 = .ok (ta, ld2) ∧
      ld2.peek = .ok nb ∧
      (((ComponentDescriptor.mk nb).is_object = true ∧
          attrs = acc ++ [ta] ∧ ldf = ld2) ∨
        ((ComponentDescriptor.mk nb).is_object = false ∧
          Template.loop fuel (acc ++ [ta]) ld2 = .ok (attrs, ldf))) := by
  rw [Template.loop] at h
  obtain ⟨⟨b, ld1⟩, hread, h⟩ := bindE_ok h
  refine ⟨b, ld1, ?_⟩
  cases hattr : (ComponentDescriptor.mk b).is_attribute_group with
  | false =>
    simp only [hattr, Bool.false_eq_true, if_false] at h
    exact absurd h (by simp)
  | true =>
    simp only [hattr, if_true] at h
    obtain ⟨⟨ta, ld2⟩, hmk, h⟩ := bindE_ok h
    obtain ⟨nb, hpeek, h⟩ := bindE_ok h
    refine ⟨ta, ld2, nb, hread, rfl, hmk, hpeek, ?_⟩
    cases hobj : (ComponentDescriptor.mk nb).is_object with
    | true =>
      simp only [hobj, if_true] at h
      simp only [Except.ok.injEq, Prod.mk.injEq] at h
      exact Or.inl ⟨rfl, h.1.symm, h.2.symm⟩
    | false =>
      simp only [hobj, Bool.false_eq_true, if_false] at h
      exact Or.inr ⟨rfl, h⟩

theorem templateLoop_prefix :
    ∀ {fuel : Nat} {acc attrs : List AttributeBase} {ld ldf : LogicalData},
      Template.loop fuel acc ld = .ok (attrs, ldf) →
      ∃ ext, attrs = acc ++ ext ∧ ext ≠ [] := by
  intro fuel
  induction fuel with
  | zero => intro acc attrs ld ldf h; exact absurd h (by simp [Template.loop])
  | succ fuel ih =>
    intro acc attrs ld ldf h
    obtain ⟨b, ld1, ta, ld2, nb, _, _, _, _, hcase⟩ := templateLoop_succ_inv h
    rcases hcase with ⟨_, heq, _⟩ | ⟨_, hrec⟩
    · exact ⟨[ta], heq, by simp⟩
    · obtain ⟨ext, hext, _⟩ := ih hrec
      exact ⟨ta :: ext, by simpa using hext, by simp⟩

theorem templateLoop_elems :
    ∀ {fuel : Nat} {acc attrs : List AttributeBase} {ld ldf : LogicalData},
      (∀ x ∈ acc, x.component_descriptor.is_attribute_group = true) →
      Template.loop fuel acc ld = .ok (attrs, ldf) →
      ∀ x ∈ attrs, x.component_descriptor.is_attribute_group = true := by
  intro fuel
  induction fuel with
  | zero => intro acc attrs ld ldf _ h; exact absurd h (by simp [Template.loop])
  | succ fuel ih =>
    intro acc attrs ld ldf hacc h
    obtain ⟨b, ld1, ta, ld2, nb, _, _, hmk, _, hcase⟩ := templateLoop_succ_inv h
    obtain ⟨hcd, hta, _⟩ := makeAttr_ok hmk
    have hta2 : ta.component_descriptor.is_attribute_group = true := by
      rw [hta]; exact hcd
    have hacc2 : ∀ x ∈ acc ++ [ta],
        x.component_descriptor.is_attribute_group = true := by
      intro x hx
      rcases List.mem_append.1 hx with hx | hx
      · exact hacc x hx
      · rw [List.mem_singleton.1 hx]; exact hta2
    rcases hcase with ⟨_, heq, _⟩ | ⟨_, hrec⟩
    · rw [heq]; exact hacc2
    · exact ih hacc2 hrec

theorem templateLoop_terminator :
    ∀ {fuel : Nat} {acc attrs : List AttributeBase} {ld ldf : LogicalData},
      Template.loop fuel acc ld = .ok (attrs, ldf) →
      ∃ nb, ldf.peek = .ok nb ∧ (ComponentDescriptor.mk nb).is_object = true := by
  intro fuel
  induction fuel with
  | zero => intro acc attrs ld ldf h; exact absurd h (by simp [Template.loop])
  | succ fuel ih =>
    intro acc attrs ld ldf h
    obtain ⟨b, ld1, ta, ld2, nb, _, _, _, hpeek, hcase⟩ := templateLoop_succ_inv h
    rcases hcase with ⟨hobj, _, hldf⟩ | ⟨_, hrec⟩
    · rw [hldf]; exact ⟨nb, hpeek, hobj⟩
    · exact ih hrec

theorem templateMake_inv {ld : LogicalData} {t : Template} {ldf : LogicalData}
    (h : Template.make ld = .ok (t, ldf)) :
    Template.loop (ld.remain + 1) [] ld = .ok (t.attrs, ldf) := by
  unfold Template.make at h
  obtain ⟨⟨attrs, ld2⟩, hloop, h⟩ := bindE_ok h
  simp only [Except.ok.injEq, Prod.mk.injEq] at h
  obtain ⟨ht, hld⟩ := h
  rw [← ht, ← hld]
  exact hloop

theorem objLoop_succ_inv {t : Template} {fuel : Nat} {acc objs : List Object}
    {ld ldf : LogicalData}
    (h : objLoop t (fuel + 1) acc ld = .ok (objs, ldf)) :
    (ld.remain = 0 ∧ objs = acc ∧ ldf = ld) ∨
      (ld.remain ≠ 0 ∧ ∃ o ld1, Object.make ld t = .ok (o, ld1) ∧
        objLoop t fuel (acc ++ [o]) ld1 = .ok (objs, ldf)) := by
  rw [objLoop] at h
  by_cases hrem : ld.remain = 0
  · simp only [hrem, ne_eq, not_true_eq_false, if_false] at h
    simp only [Except.ok.injEq, Prod.mk.injEq] at h
    exact Or.inl ⟨hrem, h.1.symm, h.2.symm⟩
  · simp only [hrem, ne_eq, not_false_eq_true, if_true] at h
    obtain ⟨⟨o, ld1⟩, hmk, h⟩ := bindE_ok h
    exact Or.inr ⟨hrem, o, ld1, hmk, h⟩

theorem objLoop_final :
    ∀ {fuel : Nat} {t : Template} {acc objs : List Object} {ld ldf : LogicalData},
      objLoop t fuel acc ld = .ok (objs, ldf) → ldf.remain = 0 := by
  intro fuel
  induction fuel with
  | zero => intro t acc objs ld ldf h; exact absurd h (by simp [objLoop])
  | succ fuel ih =>
    intro t acc objs ld ldf h
    rcases objLoop_succ_inv h with ⟨hrem, _, hldf⟩ | ⟨_, o, ld1, _, hrec⟩
    · rw [hldf]; exact hrem
    · exact ih hrec

theorem objLoop_prefix :
    ∀ {fuel : Nat} {t : Template} {acc objs : List Object} {ld ldf : LogicalData},
      objLoop t fuel acc ld = .ok (objs, ldf) → ∃ ext, objs = acc ++ ext := by
  intro fuel
  induction fuel with
  | zero => intro t acc objs ld ldf h; exact absurd h (by simp [objLoop])
  | succ fuel ih =>
    intro t acc objs ld ldf h
    rcases objLoop_succ_inv h with ⟨_, hobjs, _⟩ | ⟨_, o, ld1, _, hrec⟩
    · exact ⟨[], by simpa using hobjs⟩
    · obtain ⟨ext, hext⟩ := ih hrec
      exact ⟨o :: ext, by simpa using hext⟩

theorem eflrMake_inv {ld : LogicalData}
    {e : ExplicitlyFormattedLogicalRecord} {ldf : LogicalData}
    (h : ExplicitlyFormattedLogicalRecord.make ld = .ok (e, ldf)) :
    ∃ ld1 ld2, Set.make ld = .ok (e.set, ld1) ∧
      Template.make ld1 = .ok (e.template, ld2) ∧
      objLoop e.template (ld2.remain + 1) [] ld2 = .ok (e.objects, ldf) := by
  unfold ExplicitlyFormattedLogicalRecord.make at h
  obtain ⟨⟨s, ld1⟩, hset, h⟩ := bindE_ok h
  obtain ⟨⟨t, ld2⟩, htm, h⟩ := bindE_ok h
  obtain ⟨⟨objs, ld3⟩, hol, h⟩ := bindE_ok h
  have hol2 : objLoop t (ld2.remain + 1) [] ld2 = .ok (objs, ld3) := hol
  simp only [Except.ok.injEq, Prod.mk.injEq] at h
  obtain ⟨he, hld⟩ := h
  rw [← he, ← hld]
  exact ⟨ld1, ld2, hset, htm, hol2⟩

theorem SlotsOk.nil {tattrs : List AttributeBase} : SlotsOk tattrs [] := by
  intro j ta _ hlt
  exact absurd hlt (by simp)

theorem padded_lookup {tattrs : List AttributeBase}
    {attrs : List (Option AttributeBase)} {j : Nat} {ta : AttributeBase}
    (hle : attrs.length ≤ j) (hsome : tattrs[j]? = some ta) :
    (attrs ++ (tattrs.drop attrs.length).map some)[j]? = some (some ta) := by
  rw [List.getElem?_append, if_neg (by omega), List.getElem?_map,
    List.getElem?_drop]
  have harith : attrs.length + (j - attrs.length) = j := by omega
  rw [harith, hsome]
  rfl

theorem object_not_attribute {cd : ComponentDescriptor}
    (h : cd.is_object = true) : cd.is_attribute_group = false := by
  simp only [ComponentDescriptor.is_object, decide_eq_true_eq] at h
  simp only [ComponentDescriptor.is_attribute_group, decide_eq_false_iff_not]
  omega

/-- C1: the spec claims that an Object's attribute count equals the
template length after construction, or construction fails with
ObjectFormatError — in particular that an object carrying more normal
attributes than the template has slots fails with ObjectFormatError.
On the code, that overflow instead indexes the template out of range
inside the per-object loop, which is a Python IndexError (modelled as
Err.indexError), not ExceptionEFLRObject; the post-padding
ObjectFormatError count check never fires.  This theorem evaluates the
embedded code at such a failing input: a one-slot template against an
object stream carrying two normal attributes. -/
theorem claim_C1_count_overflow :
    Object.make ⟨[96, 0, 0, 0, 33, 1, 79, 33, 1, 80], 0⟩ tmpl1 =
      .error .indexError ∧ Err.indexError ≠ Err.objectFormat := by
  constructor
  · rfl
  · decide

/-- C2: an Object whose per-object loop exits normally (which happens
exactly after appending a normal attribute with the cursor exhausted or
an Object-classified descriptor peeked) constructs successfully: the
peeked byte is not consumed (the final cursor is the loop's cursor, on
which the stop condition still holds), and the attribute list is padded
by appending the remaining Template Attributes until its length equals
the template length. -/
theorem claim_C2_omission_tail {t : Template} {ld ld1 ld2 ldf : LogicalData}
    {b : Nat} {nm : ObjectName} {attrs : List (Option AttributeBase)}
    (hread : ld.read = .ok (b, ld1))
    (hobj : (ComponentDescriptor.mk b).is_object = true)
    (hname : OBNAME ld1 = .ok (nm, ld2))
    (hloop : Object.loop t.attrs (ld2.remain + 1) 0 [] ld2 = .ok (attrs, ldf)) :
    Object.make ld t =
      .ok (⟨nm, attrs ++ (t.attrs.drop attrs.length).map some⟩, ldf) ∧
    (attrs ++ (t.attrs.drop attrs.length).map some).length = t.attrs.length ∧
    (ldf.remain = 0 ∨
      ∃ nb, ldf.peek = .ok nb ∧ (ComponentDescriptor.mk nb).is_object = true) := by
  have hlen : attrs.length ≤ t.attrs.length := objectLoop_length nilLen hloop
  have hlen2 :
      (attrs ++ (t.attrs.drop attrs.length).map some).length =
        t.attrs.length := by
    simp
    omega
  refine ⟨?_, hlen2, objectLoop_stop hloop⟩
  have hpad : padLoop t.attrs.length t.attrs attrs =
      attrs ++ (t.attrs.drop attrs.length).map some :=
    padLoop_spec _ _ _ (by omega)
  simp only [Object.make, hread, okBind, hobj, if_true, hname, hloop, hpad]
  rw [if_neg (fun hne => hne hlen2.symm)]

/-- C3: for every template slot whose Template Attribute classifies as
invariant, the branch is decided by that classification alone: whatever
attribute-classified descriptor byte is read from the object's stream at
that slot, the loop consumes only that byte and appends the Template
Attribute itself (first conjunct); consequently every successfully
constructed Object holds the Template Attribute itself at every
invariant-classified slot (second conjunct). -/
theorem claim_C3_invariant_slots :
    (∀ (tattrs : List AttributeBase) (fuel index : Nat)
        (acc : List (Option AttributeBase)) (ld ld1 : LogicalData) (b : Nat)
        (ta : AttributeBase),
      ld.read = .ok (b, ld1) →
      (ComponentDescriptor.mk b).is_attribute_group = true →
      tattrs[index]? = some ta →
      ta.component_descriptor.is_invariant_attribute = true →
      Object.loop tattrs (fuel + 1) index acc ld =
        Object.loop tattrs fuel (index + 1) (acc ++ [some ta]) ld1) ∧
    (∀ (t : Template) (ld ldf : LogicalData) (o : Object),
      Object.make ld t = .ok (o, ldf) →
      ∀ (j : Nat) (ta : AttributeBase), t.attrs[j]? = some ta →
        ta.component_descriptor.is_invariant_attribute = true →
        o.attrs[j]? = some (some ta)) := by
  constructor
  · intro tattrs fuel index acc ld ld1 b ta hread hattr hidx hinv
    exact objectLoop_invariant_step hread hattr hidx hinv
  · intro t ld ldf o h j ta hj hinv
    obtain ⟨b, ld1, nm, ld2, attrs, _, _, _, hloop, ho, hlen⟩ :=
      objectMake_inv h
    subst ho
    have hslots := objectLoop_slots nilLen SlotsOk.nil hloop
    by_cases hcase : j < attrs.length
    · have hval := (hslots j ta hj hcase).1 hinv
      show (attrs ++ (t.attrs.drop attrs.length).map some)[j]? = some (some ta)
      rw [List.getElem?_append, if_pos hcase]
      exact hval
    · exact padded_lookup (by omega) hj

/-- C4: an Attribute built from a descriptor, cursor and Template
Attribute resolves each of the five characteristics freshly exactly when
the descriptor marks it present and copies it from the Template Attribute
otherwise; the value-list, when present, is decoded with the attribute's
own resolved representation code and its length equals the attribute's
own resolved count. -/
theorem claim_C4_attribute_resolution {cd : ComponentDescriptor}
    {ld ldf : LogicalData} {ta a : AttributeBase}
    (h : Attribute.make cd ld ta = .ok (a, ldf)) :
    cd.is_attribute_group = true ∧ a.component_descriptor = cd ∧
    ∃ ld1 ld2 ld3 ld4,
      (if cd.has_attribute_L then IDENT ld = .ok (a.label, ld1)
        else a.label = ta.label ∧ ld1 = ld) ∧
      (if cd.has_attribute_C then UVARI ld1 = .ok (a.count, ld2)
        else a.count = ta.count ∧ ld2 = ld1) ∧
      (if cd.has_attribute_R then USHORT ld2 = .ok (a.rep_code, ld3)
        else a.rep_code = ta.rep_code ∧ ld3 = ld2) ∧
      (if cd.has_attribute_U then UNITS ld3 = .ok (a.units, ld4)
        else a.units = ta.units ∧ ld4 = ld3) ∧
      (if cd.has_attribute_V then
        ∃ vs, a.value = some vs ∧ vs.length = a.count ∧
          readValues a.rep_code a.count ld4 = .ok (vs, ldf)
        else a.value = ta.value ∧ ldf = ld4) := by
  obtain ⟨hgrp, hcd, ld1, ld2, ld3, ld4, h1, h2, h3, h4, h5⟩ := makeAttr_ok h
  refine ⟨hgrp, hcd, ld1, ld2, ld3, ld4, ?_, ?_, ?_, ?_, ?_⟩
  · rcases parseChar_ok h1 with ⟨hf, hd⟩ | ⟨hf, hv, hld⟩
    · rw [hf, if_pos rfl]; exact hd
    · rw [hf]; simp only [Bool.false_eq_true, if_false]; exact ⟨hv, hld⟩
  · rcases parseChar_ok h2 with ⟨hf, hd⟩ | ⟨hf, hv, hld⟩
    · rw [hf, if_pos rfl]; exact hd
    · rw [hf]; simp only [Bool.false_eq_true, if_false]; exact ⟨hv, hld⟩
  · rcases parseChar_ok h3 with ⟨hf, hd⟩ | ⟨hf, hv, hld⟩
    · rw [hf, if_pos rfl]; exact hd
    · rw [hf]; simp only [Bool.false_eq_true, if_false]; exact ⟨hv, hld⟩
  · rcases parseChar_ok h4 with ⟨hf, hd⟩ | ⟨hf, hv, hld⟩
    · rw [hf, if_pos rfl]; exact hd
    · rw [hf]; simp only [Bool.false_eq_true, if_false]; exact ⟨hv, hld⟩
  · rcases parseChar_ok h5 with ⟨hf, hd⟩ | ⟨hf, hv, hld⟩
    · rw [hf, if_pos rfl]
      obtain ⟨⟨vs, ld5⟩, hrv, hd2⟩ := bindE_ok hd
      simp only [Except.ok.injEq, Prod.mk.injEq] at hd2
      exact ⟨vs, hd2.1.symm, readValues_length hrv, hd2.2 ▸ hrv⟩
    · rw [hf]; simp only [Bool.false_eq_true, if_false]; exact ⟨hv, hld⟩

/-- C5: a successfully built Template is nonempty, every consumed
descriptor (stored on its attribute) classifies as Attribute, and the
terminating Object-classified descriptor is peeked but not consumed
(first conjunct); a non-final descriptor that does not classify as
Attribute fails the build with TemplateFormatError (second conjunct);
each loop step consumes exactly one attribute descriptor and appends
exactly one Template Attribute, stopping on an Object-classified peek
(third conjunct), so the length equals the number of attribute
descriptors consumed. -/
theorem claim_C5_template_build :
    (∀ (ld : LogicalData) (t : Template) (ldf : LogicalData),
      Template.make ld = .ok (t, ldf) →
      t.attrs ≠ [] ∧
      (∀ x ∈ t.attrs, x.component_descriptor.is_attribute_group = true) ∧
      ∃ nb, ldf.peek = .ok nb ∧ (ComponentDescriptor.mk nb).is_object = true) ∧
    (∀ (fuel : Nat) (acc : List AttributeBase) (ld ld1 : LogicalData) (b : Nat),
      ld.read = .ok (b, ld1) →
      (ComponentDescriptor.mk b).is_attribute_group = false →
      Template.loop (fuel + 1) acc ld = .error .templateFormat) ∧
    (∀ (fuel : Nat) (acc : List AttributeBase) (ld ld1 ld2 : LogicalData)
        (b nb : Nat) (ta : AttributeBase),
      ld.read = .ok (b, ld1) →
      (ComponentDescriptor.mk b).is_attribute_group = true →
      TemplateAttribute.make ⟨b⟩ ld1 = .ok (ta, ld2) →
      ld2.peek = .ok nb →
      Template.loop (fuel + 1) acc ld =
        (if (ComponentDescriptor.mk nb).is_object then .ok (acc ++ [ta], ld2)
          else Template.loop fuel (acc ++ [ta]) ld2)) := by
  refine ⟨?_, ?_, ?_⟩
  · intro ld t ldf h
    have hloop := templateMake_inv h
    obtain ⟨ext, hext, hne⟩ := templateLoop_prefix hloop
    refine ⟨by simpa [hext] using hne, ?_, templateLoop_terminator hloop⟩
    exact templateLoop_elems (by intro x hx; exact absurd hx (by simp)) hloop
  · intro fuel acc ld ld1 b hread hattr
    exact templateLoop_nonattribute hread hattr
  · intro fuel acc ld ld1 ld2 b nb ta hread hattr hmk hpeek
    simp [Template.loop, hread, okBind, hattr, hmk, hpeek]

/-- C6: EFLR construction parses exactly one Set, then exactly one
Template, then Objects in a loop whose sole continuation condition is the
cursor's has-more-bytes query (so on success the final cursor is
exhausted); the record's length is its object count and indexed access
returns the objects in parse order. -/
theorem claim_C6_eflr {ld ldf : LogicalData}
    {e : ExplicitlyFormattedLogicalRecord}
    (h : ExplicitlyFormattedLogicalRecord.make ld = .ok (e, ldf)) :
    (∃ ld1 ld2, Set.make ld = .ok (e.set, ld1) ∧
      Template.make ld1 = .ok (e.template, ld2) ∧
      objLoop e.template (ld2.remain + 1) [] ld2 = .ok (e.objects, ldf)) ∧
    ldf.remain = 0 ∧
    e.length = e.objects.length ∧
    ∀ i, e.getObject i = e.objects[i]? := by
  obtain ⟨ld1, ld2, hset, htm, hol⟩ :=
    eflrMake_inv h
  exact ⟨⟨ld1, ld2, hset, htm, hol⟩, objLoop_final hol, rfl, fun i => rfl⟩

/-- C7 counterexample: the claim says every Object's entry at an
absent-classified template slot is null.  In this record the template's
second slot is absent-classified, but the object's stream stops after its
first (normal) attribute, so the padding loop fills slot 1 with the
Template Attribute itself — not null. -/
theorem claim_C7_counterexample :
    Object.make ⟨[96, 0, 0, 0, 33, 1, 79], 0⟩ tmpl2 =
      .ok (⟨⟨0, 0, []⟩, [some a1, some taAbs]⟩,
        ⟨[96, 0, 0, 0, 33, 1, 79], 7⟩) ∧
    taAbs.component_descriptor.is_absent_attribute = true ∧
    (some taAbs : Option AttributeBase) ≠ none := by
  refine ⟨by rfl, by decide, by decide⟩

/-- C7 amended: at an absent-classified template slot the per-object loop
appends null (consuming one descriptor byte and parsing no value — first
conjunct); in a successfully constructed Object an absent-classified slot
therefore holds null when the loop reached it, while a slot beyond the
loop's early stop is filled by padding with the Template Attribute itself
(second conjunct). -/
theorem claim_C7_absent_slots :
    (∀ (tattrs : List AttributeBase) (fuel index : Nat)
        (acc : List (Option AttributeBase)) (ld ld1 : LogicalData) (b : Nat)
        (ta : AttributeBase),
      ld.read = .ok (b, ld1) →
      (ComponentDescriptor.mk b).is_attribute_group = true →
      tattrs[index]? = some ta →
      ta.component_descriptor.is_invariant_attribute = false →
      ta.component_descriptor.is_absent_attribute = true →
      Object.loop tattrs (fuel + 1) index acc ld =
        Object.loop tattrs fuel (index + 1) (acc ++ [none]) ld1) ∧
    (∀ (t : Template) (ld ldf : LogicalData) (o : Object),
      Object.make ld t = .ok (o, ldf) →
      ∀ (j : Nat) (ta : AttributeBase), t.attrs[j]? = some ta →
        ta.component_descriptor.is_absent_attribute = true →
        o.attrs[j]? = some none ∨ o.attrs[j]? = some (some ta)) := by
  constructor
  · intro tattrs fuel index acc ld ld1 b ta hread hattr hidx hninv habs
    exact objectLoop_absent_step hread hattr hidx hninv habs
  · intro t ld ldf o h j ta hj habs
    obtain ⟨b, ld1, nm, ld2, attrs, _, _, _, hloop, ho, hlen⟩ :=
      objectMake_inv h
    subst ho
    have hslots := objectLoop_slots nilLen SlotsOk.nil hloop
    by_cases hcase : j < attrs.length
    · left
      have hval := (hslots j ta hj hcase).2 habs
      show (attrs ++ (t.attrs.drop attrs.length).map some)[j]? = some none
      rw [List.getElem?_append, if_pos hcase]
      exact hval
    · right
      exact padded_lookup (by omega) hj

/-- C8: Set construction consumes one Component Descriptor byte and fails
with SetFormatError exactly when that byte does not classify as a Set
(first and second conjuncts — no other parse step can produce
SetFormatError); on success it reads the type identifier and reads the
name identifier only when the name-presence flag is set, assigning the
global default otherwise (third conjunct). -/
theorem claim_C8_set (ld : LogicalData) :
    (∀ (b : Nat) (ld1 : LogicalData), ld.read = .ok (b, ld1) →
      (ComponentDescriptor.mk b).is_set_group = false →
      Set.make ld = .error .setFormat) ∧
    (Set.make ld = .error .setFormat →
      ∃ b ld1, ld.read = .ok (b, ld1) ∧
        (ComponentDescriptor.mk b).is_set_group = false) ∧
    (∀ (s : Set) (ldf : LogicalData), Set.make ld = .ok (s, ldf) →
      ∃ b ld1 ld2, ld.read = .ok (b, ld1) ∧
        (ComponentDescriptor.mk b).is_set_group = true ∧
        IDENT ld1 = .ok (s.type, ld2) ∧
        (((ComponentDescriptor.mk b).has_set_N = true ∧
            IDENT ld2 = .ok (s.name, ldf)) ∨
          ((ComponentDescriptor.mk b).has_set_N = false ∧
            s.name = defaultSetName ∧ ldf = ld2))) := by
  refine ⟨?_, ?_, ?_⟩
  · intro b ld1 hread hset
    simp [Set.make, hread, okBind, hset]
  · intro h
    unfold Set.make at h
    cases hread : ld.read with
    | error e =>
      rw [hread, errBind] at h
      injection h with h2
      rw [read_error hread] at h2
      exact absurd h2 (by simp)
    | ok p =>
      obtain ⟨b, ld1⟩ := p
      rw [hread, okBind] at h
      cases hsg : (ComponentDescriptor.mk b).is_set_group with
      | false => exact ⟨b, ld1, rfl, hsg⟩
      | true =>
        simp only [hsg, if_true] at h
        rcases bindE_error h with h1 | ⟨⟨ty, ld2⟩, _, h1⟩
        · exact absurd (IDENT_error h1) (by simp)
        · cases hn : (ComponentDescriptor.mk b).has_set_N with
          | false =>
            simp only [hn, Bool.false_eq_true, if_false] at h1
            exact absurd h1 (by simp)
          | true =>
            simp only [hn, if_true] at h1
            rcases bindE_error h1 with h2 | ⟨⟨nm, ld3⟩, _, h2⟩
            · exact absurd (IDENT_error h2) (by simp)
            · exact absurd h2 (by simp)
  · intro s ldf h
    unfold Set.make at h
    obtain ⟨⟨b, ld1⟩, hread, h⟩ := bindE_ok h
    cases hsg : (ComponentDescriptor.mk b).is_set_group with
    | false =>
      simp only [hsg, Bool.false_eq_true, if_false] at h
      exact absurd h (by simp)
    | true =>
      simp only [hsg, if_true] at h
      obtain ⟨⟨ty, ld2⟩, hty, h⟩ := bindE_ok h
      cases hn : (ComponentDescriptor.mk b).has_set_N with
      | false =>
        simp only [hn, Bool.false_eq_true, if_false] at h
        simp only [Except.ok.injEq, Prod.mk.injEq] at h
        obtain ⟨hs, hldf⟩ := h
        subst hs
        subst hldf
        exact ⟨b, ld1, ld2, hread, hsg, hty, Or.inr ⟨hn, rfl, rfl⟩⟩
      | true =>
        simp only [hn, if_true] at h
        obtain ⟨⟨nm, ld3⟩, hnm, h⟩ := bindE_ok h
        simp only [Except.ok.injEq, Prod.mk.injEq] at h
        obtain ⟨hs, hldf⟩ := h
        subst hs
        subst hldf
        exact ⟨b, ld1, ld2, hread, hsg, hty, Or.inl ⟨hn, hnm⟩⟩

/-- C9: in the per-object loop, the early-termination check exists only
in the normal branch: after appending an invariant Template Attribute
reference (first conjunct) or a null for an absent slot (second
conjunct), the loop continues unconditionally into another iteration that
begins by reading a further Component Descriptor byte; that read raises
ObjectFormatError when the byte classifies as Object (third conjunct) and
propagates the cursor failure when the cursor is exhausted (fourth
conjunct); and a successful loop run can only have ended in the normal
branch: its last appended entry is a fresh attribute at a slot whose
Template Attribute is neither invariant- nor absent-classified (fifth
conjunct). -/
theorem claim_C9_termination_only_normal :
    (∀ (tattrs : List AttributeBase) (fuel index : Nat)
        (acc : List (Option AttributeBase)) (ld ld1 : LogicalData) (b : Nat)
        (ta : AttributeBase),
      ld.read = .ok (b, ld1) →
      (ComponentDescriptor.mk b).is_attribute_group = true →
      tattrs[index]? = some ta →
      ta.component_descriptor.is_invariant_attribute = true →
      Object.loop tattrs (fuel + 1) index acc ld =
        Object.loop tattrs fuel (index + 1) (acc ++ [some ta]) ld1) ∧
    (∀ (tattrs : List AttributeBase) (fuel index : Nat)
        (acc : List (Option AttributeBase)) (ld ld1 : LogicalData) (b : Nat)
        (ta : AttributeBase),
      ld.read = .ok (b, ld1) →
      (ComponentDescriptor.mk b).is_attribute_group = true →
      tattrs[index]? = some ta →
      ta.component_descriptor.is_invariant_attribute = false →
      ta.component_descriptor.is_absent_attribute = true →
      Object.loop tattrs (fuel + 1) index acc ld =
        Object.loop tattrs fuel (index + 1) (acc ++ [none]) ld1) ∧
    (∀ (tattrs : List AttributeBase) (fuel index : Nat)
        (acc : List (Option AttributeBase)) (ld ld1 : LogicalData) (b : Nat),
      ld.read = .ok (b, ld1) →
      (ComponentDescriptor.mk b).is_object = true →
      Object.loop tattrs (fuel + 1) index acc ld = .error .objectFormat) ∧
    (∀ (tattrs : List AttributeBase) (fuel index : Nat)
        (acc : List (Option AttributeBase)) (ld : LogicalData),
      ld.read = .error .cursorExhausted →
      Object.loop tattrs (fuel + 1) index acc ld = .error .cursorExhausted) ∧
    (∀ (tattrs : List AttributeBase) (fuel : Nat)
        (attrs : List (Option AttributeBase)) (ld ldf : LogicalData),
      Object.loop tattrs fuel 0 [] ld = .ok (attrs, ldf) →
      ∃ j ta a, tattrs[j]? = some ta ∧
        ta.component_descriptor.is_invariant_attribute = false ∧
        ta.component_descriptor.is_absent_attribute = false ∧
        attrs.length = j + 1 ∧ attrs[j]? = some (some a)) := by
  refine ⟨?_, ?_, ?_, ?_, ?_⟩
  · intro tattrs fuel index acc ld ld1 b ta hread hattr hidx hinv
    exact objectLoop_invariant_step hread hattr hidx hinv
  · intro tattrs fuel index acc ld ld1 b ta hread hattr hidx hninv habs
    exact objectLoop_absent_step hread hattr hidx hninv habs
  · intro tattrs fuel index acc ld ld1 b hread hobj
    exact objectLoop_nonattribute hread (object_not_attribute hobj)
  · intro tattrs fuel index acc ld hread
    exact objectLoop_exhausted hread
  · intro tattrs fuel attrs ld ldf h
    exact objectLoop_normal_exit nilLen h

/-- C10: a successfully built Template has at least one Template
Attribute (first conjunct), an immediate Object marker at the first
template position raises TemplateFormatError (second conjunct), and a
successfully built EFLR has at least one Object, because the Template
leaves its peeked Object descriptor unconsumed so the object loop's body
runs at least once (third conjunct). -/
theorem claim_C10_nonempty :
    (∀ (ld : LogicalData) (t : Template) (ldf : LogicalData),
      Template.make ld = .ok (t, ldf) → t.attrs ≠ []) ∧
    (∀ (ld ld1 : LogicalData) (b : Nat),
      ld.read = .ok (b, ld1) →
      (ComponentDescriptor.mk b).is_object = true →
      Template.make ld = .error .templateFormat) ∧
    (∀ (ld : LogicalData) (e : ExplicitlyFormattedLogicalRecord)
        (ldf : LogicalData),
      ExplicitlyFormattedLogicalRecord.make ld = .ok (e, ldf) →
      e.objects ≠ []) := by
  refine ⟨?_, ?_, ?_⟩
  · intro ld t ldf h
    obtain ⟨ext, hext, hne⟩ := templateLoop_prefix (templateMake_inv h)
    simpa [hext] using hne
  · intro ld ld1 b hread hobj
    have hloop := @templateLoop_nonattribute ld.remain [] ld ld1 b
      hread (object_not_attribute hobj)
    simp [Template.make, hloop, errBind]
  · intro ld e ldf h
    obtain ⟨ld1, ld2, hset, htm, hol⟩ :=
      eflrMake_inv h
    obtain ⟨nb, hpeek, _⟩ := templateLoop_terminator (templateMake_inv htm)
    have hpos : 0 < ld2.remain := peek_ok_pos hpeek
    rcases objLoop_succ_inv hol with ⟨hrem, _, _⟩ | ⟨_, o, ld3, _, hrec⟩
    · omega
    · obtain ⟨ext, hext⟩ := objLoop_prefix hrec
      rw [hext]
      simp

/-- Two-slot template fixture: an invariant-classified slot followed by a
normal slot. -/
def tmplInv : Template := ⟨[taInv, ta1]⟩

/-- The object parsed by the one-object record fixtures. -/
def obj1 : Object := ⟨⟨0, 0, []⟩, [some a1]⟩

/-- A complete one-object record fixture. -/
def eflr1 : ExplicitlyFormattedLogicalRecord := ⟨⟨[80], []⟩, tmpl1, [obj1]⟩

/-- The byte window of the complete one-object record fixture. -/
def eflrBytes : LogicalData :=
  ⟨[224, 1, 80, 48, 1, 65, 96, 0, 0, 0, 33, 1, 79], 0⟩

theorem claim_C2_witness :
    Object.make ⟨[96, 0, 0, 0, 33, 1, 79], 0⟩ tmpl1 =
      .ok (⟨⟨0, 0, []⟩, [some a1]⟩, ⟨[96, 0, 0, 0, 33, 1, 79], 7⟩) ∧
    ([some a1] : List (Option AttributeBase)).length = tmpl1.attrs.length ∧
    (LogicalData.remain ⟨[96, 0, 0, 0, 33, 1, 79], 7⟩ = 0 ∨
      ∃ nb, LogicalData.peek ⟨[96, 0, 0, 0, 33, 1, 79], 7⟩ = .ok nb ∧
        (ComponentDescriptor.mk nb).is_object = true) :=
  @claim_C2_omission_tail tmpl1 ⟨[96, 0, 0, 0, 33, 1, 79], 0⟩
    ⟨[96, 0, 0, 0, 33, 1, 79], 1⟩ ⟨[96, 0, 0, 0, 33, 1, 79], 4⟩
    ⟨[96, 0, 0, 0, 33, 1, 79], 7⟩ 96 ⟨0, 0, []⟩ [some a1]
    (by rfl) (by decide) (by rfl) (by rfl)

theorem claim_C3_witness :
    (⟨⟨0, 0, []⟩, [some taInv, some a1]⟩ : Object).attrs[0]? =
      some (some taInv) :=
  claim_C3_invariant_slots.2 tmplInv ⟨[96, 0, 0, 0, 32, 33, 1, 79], 0⟩
    ⟨[96, 0, 0, 0, 32, 33, 1, 79], 8⟩ ⟨⟨0, 0, []⟩, [some taInv, some a1]⟩
    (by rfl) 0 taInv (by rfl) (by decide)

theorem claim_C4_witness :
    (ComponentDescriptor.mk 33).is_attribute_group = true ∧
    a1.component_descriptor = ⟨33⟩ ∧
    ∃ ld1 ld2 ld3 ld4,
      (if (ComponentDescriptor.mk 33).has_attribute_L then
        IDENT ⟨[1, 79], 0⟩ = .ok (a1.label, ld1)
        else a1.label = ta1.label ∧ ld1 = ⟨[1, 79], 0⟩) ∧
      (if (ComponentDescriptor.mk 33).has_attribute_C then
        UVARI ld1 = .ok (a1.count, ld2)
        else a1.count = ta1.count ∧ ld2 = ld1) ∧
      (if (ComponentDescriptor.mk 33).has_attribute_R then
        USHORT ld2 = .ok (a1.rep_code, ld3)
        else a1.rep_code = ta1.rep_code ∧ ld3 = ld2) ∧
      (if (ComponentDescriptor.mk 33).has_attribute_U then
        UNITS ld3 = .ok (a1.units, ld4)
        else a1.units = ta1.units ∧ ld4 = ld3) ∧
      (if (ComponentDescriptor.mk 33).has_attribute_V then
        ∃ vs, a1.value = some vs ∧ vs.length = a1.count ∧
          readValues a1.rep_code a1.count ld4 = .ok (vs, ⟨[1, 79], 2⟩)
        else a1.value = ta1.value ∧ (⟨[1, 79], 2⟩ : LogicalData) = ld4) :=
  @claim_C4_attribute_resolution ⟨33⟩ ⟨[1, 79], 0⟩ ⟨[1, 79], 2⟩ ta1 a1 (by rfl)

theorem claim_C5_witness :
    tmpl1.attrs ≠ [] ∧
    (∀ x ∈ tmpl1.attrs, x.component_descriptor.is_attribute_group = true) ∧
    ∃ nb, LogicalData.peek ⟨[48, 1, 65, 96], 3⟩ = .ok nb ∧
      (ComponentDescriptor.mk nb).is_object = true :=
  claim_C5_template_build.1 ⟨[48, 1, 65, 96], 0⟩ tmpl1 ⟨[48, 1, 65, 96], 3⟩
    (by rfl)

theorem claim_C6_witness :
    (∃ ld1 ld2, Set.make eflrBytes = .ok (eflr1.set, ld1) ∧
      Template.make ld1 = .ok (eflr1.template, ld2) ∧
      objLoop eflr1.template (ld2.remain + 1) [] ld2 =
        .ok (eflr1.objects,
          ⟨[224, 1, 80, 48, 1, 65, 96, 0, 0, 0, 33, 1, 79], 13⟩)) ∧
    LogicalData.remain ⟨[224, 1, 80, 48, 1, 65, 96, 0, 0, 0, 33, 1, 79], 13⟩ = 0 ∧
    eflr1.length = eflr1.objects.length ∧
    ∀ i, eflr1.getObject i = eflr1.objects[i]? :=
  @claim_C6_eflr eflrBytes
    ⟨[224, 1, 80, 48, 1, 65, 96, 0, 0, 0, 33, 1, 79], 13⟩ eflr1 (by rfl)

theorem claim_C7_witness :
    Object.loop [taAbs] 1 0 [] ⟨[32, 99], 0⟩ =
      Object.loop [taAbs] 0 1 [none] ⟨[32, 99], 1⟩ :=
  claim_C7_absent_slots.1 [taAbs] 0 0 [] ⟨[32, 99], 0⟩ ⟨[32, 99], 1⟩ 32 taAbs
    (by rfl) (by decide) (by rfl) (by decide) (by decide)

theorem claim_C8_witness : Set.make ⟨[32], 0⟩ = .error .setFormat :=
  (claim_C8_set ⟨[32], 0⟩).1 32 ⟨[32], 1⟩ (by rfl) (by decide)

theorem claim_C9_witness :
    Object.loop [ta1] 1 0 [] ⟨[96], 0⟩ = .error .objectFormat :=
  claim_C9_termination_only_normal.2.2.1 [ta1] 0 0 [] ⟨[96], 0⟩ ⟨[96], 1⟩ 96
    (by rfl) (by decide)

theorem claim_C10_witness : tmpl1.attrs ≠ [] ∧ eflr1.objects ≠ [] :=
  ⟨claim_C10_nonempty.1 ⟨[48, 1, 65, 96], 0⟩ tmpl1 ⟨[48, 1, 65, 96], 3⟩
      (by rfl),
    claim_C10_nonempty.2.2 eflrBytes eflr1
      ⟨[224, 1, 80, 48, 1, 65, 96, 0, 0, 0, 33, 1, 79], 13⟩ (by rfl)⟩

end RP66V1
